import Mathlib

/-
Verification of the Chip8 interpreter core (src/Chip8/chip8.c, chip8.h).

The machine state chip8_t is embedded as a structure of Nat-valued fields;
byte and 16-bit fields are Nat with explicit `% 256` / `% 65536` wherever the
C code truncates.  Arrays (mem, V, stack, keypad, display) are total functions
Nat -> Nat, updated with Function.update; well-formed states keep byte values
below 256, which theorems assume where needed.  The C rand() call is modelled
as consumption of an external entropy stream carried in the state.  File input
in chip8_load_rom is modelled by passing the file content as a byte list.
-/

/-- Machine state, embedding struct chip8_t from chip8.h.  The fields randSeq
and randIdx model the C library rand() stream consumed by chip8_RND_Vx_byte. -/
structure Chip8 where
  mem : Nat → Nat
  V : Nat → Nat
  I : Nat
  pc : Nat
  delay_timer : Nat
  sound_timer : Nat
  stack : Nat → Nat
  sp : Nat
  keypad : Nat → Nat
  display : Nat → Nat
  randSeq : Nat → Nat
  randIdx : Nat

/-- chip8_init: zero mem, V, keypad, display; pc := 0x200; sp := 0.  The C
function leaves I, delay_timer, sound_timer and stack untouched, so they are
carried over from the argument state. -/
def chip8_init (s : Chip8) : Chip8 :=
  { s with mem := fun _ => 0, V := fun _ => 0, pc := 0x200, sp := 0,
           keypad := fun _ => 0, display := fun _ => 0 }

/-- chip8_load_rom with the opened file abstracted as its byte content.  The
C code rejects the rom when rom_size > CHIP8_MEM_SIZE - CHIP8_PROGRAM_OFFSET
(leaving the machine untouched), otherwise freads the bytes into mem starting
at CHIP8_PROGRAM_OFFSET.  Returns the bool result paired with the state. -/
def chip8_load_rom (s : Chip8) (rom : List Nat) : Bool × Chip8 :=
  if rom.length > 4096 - 0x200 then (false, s)
  else
    let m := fun a =>
      if 0x200 ≤ a ∧ a < 0x200 + rom.length then rom.getD (a - 0x200) 0
      else s.mem a
    (true, { s with mem := m })

/-- chip8_set_key: writes keypad state when the key index is within the
CHIP8_KEY_0 .. CHIP8_KEY_F range (0..15); otherwise a no-op. -/
def chip8_set_key (key state : Nat) (s : Chip8) : Chip8 :=
  if key ≤ 15 then { s with keypad := Function.update s.keypad key state }
  else s

/-- 00E0 CLS: clear the display buffer, pc += 2. -/
def chip8_CLS (s : Chip8) : Chip8 :=
  { s with display := fun _ => 0, pc := (s.pc + 2) % 65536 }

/-- 00EE RET: pc = stack[--sp]; pc += 2.  sp is uint16_t so the decrement is
modulo 65536 (underflow at sp = 0 wraps, as in C). -/
def chip8_RET (s : Chip8) : Chip8 :=
  let sp1 := (s.sp + 65535) % 65536
  { s with sp := sp1, pc := (s.stack sp1 + 2) % 65536 }

/-- 1nnn JP addr: pc = addr (stored into a uint16_t field). -/
def chip8_JP_addr (addr : Nat) (s : Chip8) : Chip8 :=
  { s with pc := addr % 65536 }

/-- 2nnn CALL addr: stack[sp++] = pc; pc = addr. -/
def chip8_CALL_addr (addr : Nat) (s : Chip8) : Chip8 :=
  { s with stack := Function.update s.stack s.sp s.pc,
           sp := (s.sp + 1) % 65536,
           pc := addr % 65536 }

/-- 3xkk SE Vx, byte: pc += 4 when V[x] == kk else pc += 2. -/
def chip8_SE_Vx_byte (x kk : Nat) (s : Chip8) : Chip8 :=
  if s.V x = kk then { s with pc := (s.pc + 4) % 65536 }
  else { s with pc := (s.pc + 2) % 65536 }

/-- 4xkk SNE Vx, byte: pc += 4 when V[x] != kk else pc += 2. -/
def chip8_SNE_Vx_byte (x kk : Nat) (s : Chip8) : Chip8 :=
  if s.V x ≠ kk then { s with pc := (s.pc + 4) % 65536 }
  else { s with pc := (s.pc + 2) % 65536 }

/-- 5xy0 SE Vx, Vy: pc += 4 when V[x] == V[y] else pc += 2. -/
def chip8_SE_Vx_Vy (x y : Nat) (s : Chip8) : Chip8 :=
  if s.V x = s.V y then { s with pc := (s.pc + 4) % 65536 }
  else { s with pc := (s.pc + 2) % 65536 }

/-- 6xkk LD Vx, byte: V[x] = kk (uint8_t store), pc += 2. -/
def chip8_LD_Vx_byte (x kk : Nat) (s : Chip8) : Chip8 :=
  { s with V := Function.update s.V x (kk % 256), pc := (s.pc + 2) % 65536 }

/-- 7xkk ADD Vx, byte: V[x] += kk with uint8_t wraparound, pc += 2. -/
def chip8_ADD_Vx_byte (x kk : Nat) (s : Chip8) : Chip8 :=
  { s with V := Function.update s.V x ((s.V x + kk) % 256),
           pc := (s.pc + 2) % 65536 }

/-- 8xy0 LD Vx, Vy: V[x] = V[y], pc += 2. -/
def chip8_LD_Vx_Vy (x y : Nat) (s : Chip8) : Chip8 :=
  { s with V := Function.update s.V x (s.V y), pc := (s.pc + 2) % 65536 }

/-- 8xy1 OR Vx, Vy. -/
def chip8_OR_Vx_Vy (x y : Nat) (s : Chip8) : Chip8 :=
  { s with V := Function.update s.V x (s.V x ||| s.V y),
           pc := (s.pc + 2) % 65536 }

/-- 8xy2 AND Vx, Vy. -/
def chip8_AND_Vx_Vy (x y : Nat) (s : Chip8) : Chip8 :=
  { s with V := Function.update s.V x (s.V x &&& s.V y),
           pc := (s.pc + 2) % 65536 }

/-- 8xy3 XOR Vx, Vy. -/
def chip8_XOR_Vx_Vy (x y : Nat) (s : Chip8) : Chip8 :=
  { s with V := Function.update s.V x (s.V x ^^^ s.V y),
           pc := (s.pc + 2) % 65536 }

/-- 8xy4 ADD Vx, Vy: sum into a uint16_t, V[0xF] = (sum > 0xFF), then
V[x] = (uint8_t)sum; the carry flag is written before the result store. -/
def chip8_ADD_Vx_Vy (x y : Nat) (s : Chip8) : Chip8 :=
  let sum := (s.V x + s.V y) % 65536
  let V1 := Function.update s.V 15 (if sum > 0xFF then 1 else 0)
  { s with V := Function.update V1 x (sum % 256), pc := (s.pc + 2) % 65536 }

/-- 8xy5 SUB Vx, Vy: V[0xF] = 1 when V[x] >= V[y] else 0 (compared before
the flag write), then V[x] -= V[y] with uint8_t wraparound, reading the
registers after the flag write as the C code does. -/
def chip8_SUB_Vx_Vy (x y : Nat) (s : Chip8) : Chip8 :=
  let f := if s.V x ≥ s.V y then 1 else 0
  let V1 := Function.update s.V 15 f
  { s with V := Function.update V1 x ((V1 x + 256 - V1 y) % 256),
           pc := (s.pc + 2) % 65536 }

/-- 8xy6 SHR Vx: V[0xF] = V[x] & 1, then V[x] >>= 1 reading V[x] after the
flag write (so x = 15 shifts the freshly written flag). -/
def chip8_SHR_Vx (x : Nat) (s : Chip8) : Chip8 :=
  let V1 := Function.update s.V 15 (s.V x &&& 1)
  { s with V := Function.update V1 x (V1 x >>> 1), pc := (s.pc + 2) % 65536 }

/-- 8xy7 SUBN Vx, Vy: the C code sets V[0xF] = 0 when V[y] > V[x] and 1
otherwise (comparison done before the flag write), then V[x] = V[y] - V[x]
with uint8_t wraparound, reading the registers after the flag write. -/
def chip8_SUBN_Vx_Vy (x y : Nat) (s : Chip8) : Chip8 :=
  let f := if s.V y > s.V x then 0 else 1
  let V1 := Function.update s.V 15 f
  { s with V := Function.update V1 x ((V1 y + 256 - V1 x) % 256),
           pc := (s.pc + 2) % 65536 }

/-- 8xyE SHL Vx: V[0xF] = V[x] >> 7, then V[x] <<= 1 with uint8_t
truncation, reading V[x] after the flag write. -/
def chip8_SHL_Vx (x : Nat) (s : Chip8) : Chip8 :=
  let V1 := Function.update s.V 15 (s.V x >>> 7)
  { s with V := Function.update V1 x ((V1 x <<< 1) % 256),
           pc := (s.pc + 2) % 65536 }

/-- 9xy0 SNE Vx, Vy. -/
def chip8_SNE_Vx_Vy (x y : Nat) (s : Chip8) : Chip8 :=
  if s.V x ≠ s.V y then { s with pc := (s.pc + 4) % 65536 }
  else { s with pc := (s.pc + 2) % 65536 }

/-- Annn LD I, addr. -/
def chip8_LD_I_addr (addr : Nat) (s : Chip8) : Chip8 :=
  { s with I := addr % 65536, pc := (s.pc + 2) % 65536 }

/-- Bnnn JP V0, addr: pc = V[0] + addr (uint16_t store). -/
def chip8_JP_V0_addr (addr : Nat) (s : Chip8) : Chip8 :=
  { s with pc := (s.V 0 + addr) % 65536 }

/-- Cxkk RND Vx, byte: rand() & 0xFF, then & kk into V[x].  rand() is
modelled as the next value of the entropy stream in the state. -/
def chip8_RND_Vx_byte (x kk : Nat) (s : Chip8) : Chip8 :=
  let rand_byte := s.randSeq s.randIdx &&& 0xFF
  { s with V := Function.update s.V x (rand_byte &&& kk),
           randIdx := s.randIdx + 1, pc := (s.pc + 2) % 65536 }

/-- One sprite pixel of Dxyn: when bit (0x80 >> j) of the row byte is set,
compute buffer_index = (V[x] + j) + (V[y] + i) * 64, set V[0xF] = 1 when the
display pixel is already 1, and XOR the display pixel with 1.  The register
reads happen on the current (threaded) state, as in the C loop body. -/
def drwPixel (x y i j px : Nat) (s : Chip8) : Chip8 :=
  if px &&& (0x80 >>> j) ≠ 0 then
    let bi := (s.V x + j) + (s.V y + i) * 64
    let s1 := if s.display bi = 1 then { s with V := Function.update s.V 15 1 }
              else s
    { s1 with display := Function.update s1.display bi (s1.display bi ^^^ 1) }
  else s

/-- Inner column loop of Dxyn: j = 0 .. 7. -/
def drwRow (x y i px : Nat) (s : Chip8) : Chip8 :=
  (List.range 8).foldl (fun t j => drwPixel x y i j px t) s

/-- Dxyn DRW Vx, Vy, nibble: index captured from I at entry, V[0xF] cleared,
then each row byte mem[index + i] is drawn; finally pc += 2. -/
def chip8_DRW_Vx_Vy_nibble (x y height : Nat) (s : Chip8) : Chip8 :=
  let index := s.I
  let s0 := { s with V := Function.update s.V 15 0 }
  let s1 := (List.range height).foldl
    (fun t i => drwRow x y i (t.mem (index + i)) t) s0
  { s1 with pc := (s1.pc + 2) % 65536 }

/-- Ex9E SKP Vx: skip when keypad[V[x]] is truthy. -/
def chip8_SKP_Vx (x : Nat) (s : Chip8) : Chip8 :=
  if s.keypad (s.V x) ≠ 0 then { s with pc := (s.pc + 4) % 65536 }
  else { s with pc := (s.pc + 2) % 65536 }

/-- ExA1 SKNP Vx: skip when keypad[V[x]] is not truthy. -/
def chip8_SKNP_Vx (x : Nat) (s : Chip8) : Chip8 :=
  if s.keypad (s.V x) = 0 then { s with pc := (s.pc + 4) % 65536 }
  else { s with pc := (s.pc + 2) % 65536 }

/-- Fx07 LD Vx, DT. -/
def chip8_LD_Vx_DT (x : Nat) (s : Chip8) : Chip8 :=
  { s with V := Function.update s.V x s.delay_timer,
           pc := (s.pc + 2) % 65536 }

/-- Scan of the keypad from index i up to 15, mirroring the C loop in
chip8_LD_Vx_K which breaks at the first i with keypad[i] truthy. -/
def findKeyFrom (s : Chip8) (i : Nat) : Option Nat :=
  if 16 ≤ i then none
  else if s.keypad i ≠ 0 then some i
  else findKeyFrom s (i + 1)
termination_by 16 - i
decreasing_by omega

/-- First pressed key in keypad order 0 .. 15. -/
def firstPressedKey (s : Chip8) : Option Nat := findKeyFrom s 0

/-- Fx0A LD Vx, K: when some key is pressed, store the first pressed index
in V[x] and advance pc by 2; otherwise return with the state unchanged. -/
def chip8_LD_Vx_K (x : Nat) (s : Chip8) : Chip8 :=
  match firstPressedKey s with
  | some k => { s with V := Function.update s.V x k, pc := (s.pc + 2) % 65536 }
  | none => s

/-- Fx15 LD DT, Vx. -/
def chip8_LD_DT_Vx (x : Nat) (s : Chip8) : Chip8 :=
  { s with delay_timer := s.V x, pc := (s.pc + 2) % 65536 }

/-- Fx18 LD ST, Vx. -/
def chip8_LD_ST_Vx (x : Nat) (s : Chip8) : Chip8 :=
  { s with sound_timer := s.V x, pc := (s.pc + 2) % 65536 }

/-- Fx1E ADD I, Vx: I += V[x] with uint16_t wraparound. -/
def chip8_ADD_I_Vx (x : Nat) (s : Chip8) : Chip8 :=
  { s with I := (s.I + s.V x) % 65536, pc := (s.pc + 2) % 65536 }

/-- Fx29 LD F, Vx: I = V[x] * 5. -/
def chip8_LD_F_Vx (x : Nat) (s : Chip8) : Chip8 :=
  { s with I := (s.V x * 5) % 65536, pc := (s.pc + 2) % 65536 }

/-- Fx33 LD B, Vx: BCD digits of V[x] at mem[I], mem[I+1], mem[I+2]. -/
def chip8_LD_B_Vx (x : Nat) (s : Chip8) : Chip8 :=
  let value := s.V x
  let m1 := Function.update s.mem s.I (value / 100)
  let m2 := Function.update m1 (s.I + 1) (value / 10 % 10)
  let m3 := Function.update m2 (s.I + 2) (value % 10)
  { s with mem := m3, pc := (s.pc + 2) % 65536 }

/-- Fx55 LD [I], Vx: mem[I + i] = V[i] for i = 0 .. x, then I += x + 1. -/
def chip8_LD_I_Vx (x : Nat) (s : Chip8) : Chip8 :=
  let m := (List.range (x + 1)).foldl
    (fun mm i => Function.update mm (s.I + i) (s.V i)) s.mem
  { s with mem := m, I := (s.I + x + 1) % 65536, pc := (s.pc + 2) % 65536 }

/-- Fx65 LD Vx, [I]: V[i] = mem[I + i] for i = 0 .. x, then I += x + 1. -/
def chip8_LD_Vx_I (x : Nat) (s : Chip8) : Chip8 :=
  let v := (List.range (x + 1)).foldl
    (fun vv i => Function.update vv i (s.mem (s.I + i))) s.V
  { s with V := v, I := (s.I + x + 1) % 65536, pc := (s.pc + 2) % 65536 }

/-- Fetch of chip8_step: opcode = (mem[pc] << 8) | mem[pc + 1], stored into a
uint16_t local. -/
def fetchWord (s : Chip8) : Nat :=
  ((s.mem s.pc <<< 8) ||| s.mem (s.pc + 1)) % 65536

/-- Decode of chip8_step: the nested switch on opcode masks, translated case
for case; a hit returns the handler applied to its decoded operands, and every
C default branch returns none (the unknown-instruction paths). -/
def decodeExec (op : Nat) : Option (Chip8 → Chip8) :=
  let x := (op &&& 0x0F00) >>> 8
  let y := (op &&& 0x00F0) >>> 4
  let kk := op &&& 0x00FF
  let nnn := op &&& 0x0FFF
  let n := op &&& 0x000F
  match op &&& 0xF000 with
  | 0x0000 =>
    match op &&& 0x00FF with
    | 0x00E0 => some chip8_CLS
    | 0x00EE => some chip8_RET
    | _ => none
  | 0x1000 => some (chip8_JP_addr nnn)
  | 0x2000 => some (chip8_CALL_addr nnn)
  | 0x3000 => some (chip8_SE_Vx_byte x kk)
  | 0x4000 => some (chip8_SNE_Vx_byte x kk)
  | 0x5000 => some (chip8_SE_Vx_Vy x y)
  | 0x6000 => some (chip8_LD_Vx_byte x kk)
  | 0x7000 => some (chip8_ADD_Vx_byte x kk)
  | 0x8000 =>
    match op &&& 0x000F with
    | 0x0000 => some (chip8_LD_Vx_Vy x y)
    | 0x0001 => some (chip8_OR_Vx_Vy x y)
    | 0x0002 => some (chip8_AND_Vx_Vy x y)
    | 0x0003 => some (chip8_XOR_Vx_Vy x y)
    | 0x0004 => some (chip8_ADD_Vx_Vy x y)
    | 0x0005 => some (chip8_SUB_Vx_Vy x y)
    | 0x0006 => some (chip8_SHR_Vx x)
    | 0x0007 => some (chip8_SUBN_Vx_Vy x y)
    | 0x000E => some (chip8_SHL_Vx x)
    | _ => none
  | 0x9000 => some (chip8_SNE_Vx_Vy x y)
  | 0xA000 => some (chip8_LD_I_addr nnn)
  | 0xB000 => some (chip8_JP_V0_addr nnn)
  | 0xC000 => some (chip8_RND_Vx_byte x kk)
  | 0xD000 => some (chip8_DRW_Vx_Vy_nibble x y n)
  | 0xE000 =>
    match op &&& 0x00FF with
    | 0x009E => some (chip8_SKP_Vx x)
    | 0x00A1 => some (chip8_SKNP_Vx x)
    | _ => none
  | 0xF000 =>
    match op &&& 0x00FF with
    | 0x0007 => some (chip8_LD_Vx_DT x)
    | 0x000A => some (chip8_LD_Vx_K x)
    | 0x0015 => some (chip8_LD_DT_Vx x)
    | 0x0018 => some (chip8_LD_ST_Vx x)
    | 0x001E => some (chip8_ADD_I_Vx x)
    | 0x0029 => some (chip8_LD_F_Vx x)
    | 0x0033 => some (chip8_LD_B_Vx x)
    | 0x0055 => some (chip8_LD_I_Vx x)
    | 0x0065 => some (chip8_LD_Vx_I x)
    | _ => none
  | _ => none

/-- Fetch, decode and dispatch of chip8_step, before the timer block; an
unrecognised opcode leaves the state untouched. -/
def execPhase (s : Chip8) : Chip8 :=
  match decodeExec (fetchWord s) with
  | some f => f s
  | none => s

/-- Result of one chip8_step call: the new state, the word reported on the
unknown-instruction stderr line when decode hits a default branch, and
whether the BEEP line was printed on this cycle. -/
structure StepResult where
  chip : Chip8
  unknownWord : Option Nat
  beep : Bool

/-- Content of the unknown-instruction stderr report of chip8_step: the C
default branches print the raw opcode word (and nothing else). -/
def unknownReport (op : Nat) : Option Nat :=
  match decodeExec op with
  | some _ => none
  | none => some op

/-- chip8_step: fetch, decode, dispatch, then decrement the delay timer if
nonzero, then decrement the sound timer if nonzero, printing BEEP exactly
when the sound timer just reached zero. -/
def chip8_step (s : Chip8) : StepResult :=
  let op := fetchWord s
  let rep : Option Nat := unknownReport op
  let s1 := execPhase s
  let s2 := if 0 < s1.delay_timer then { s1 with delay_timer := s1.delay_timer - 1 }
            else s1
  if 0 < s2.sound_timer then
    let s3 := { s2 with sound_timer := s2.sound_timer - 1 }
    ⟨s3, rep, s3.sound_timer == 0⟩
  else
    ⟨s2, rep, false⟩

/-- Iterated chip8_step, keeping only the machine state. -/
def stepN : Nat → Chip8 → Chip8
  | 0, s => s
  | m + 1, s => stepN m (chip8_step s).chip

/-- A concrete all-zero machine with pc = 0x200, used for witnesses. -/
def zeroChip : Chip8 :=
  { mem := fun _ => 0, V := fun _ => 0, I := 0, pc := 0x200,
    delay_timer := 0, sound_timer := 0, stack := fun _ => 0, sp := 0,
    keypad := fun _ => 0, display := fun _ => 0,
    randSeq := fun _ => 0, randIdx := 0 }

/-- Unfolding equation for the keypad scan. -/
theorem findKeyFrom_eq (s : Chip8) (i : Nat) :
    findKeyFrom s i =
      if 16 ≤ i then none
      else if s.keypad i ≠ 0 then some i
      else findKeyFrom s (i + 1) := by
  rw [findKeyFrom]

/-- The keypad scan finds nothing when every remaining key is released. -/
theorem findKeyFrom_eq_none (s : Chip8) (i : Nat)
    (h : ∀ j, i ≤ j → j < 16 → s.keypad j = 0) : findKeyFrom s i = none := by
  rw [findKeyFrom_eq]
  by_cases h16 : 16 ≤ i
  · simp [h16]
  · have hki : s.keypad i = 0 := h i le_rfl (by omega)
    have ih : findKeyFrom s (i + 1) = none :=
      findKeyFrom_eq_none s (i + 1) (fun j h1 h2 => h j (by omega) h2)
    simp [h16, hki, ih]
termination_by 16 - i
decreasing_by omega

/-- The keypad scan returns the pressed key k when every key before k is
released. -/
theorem findKeyFrom_eq_some (s : Chip8) (k : Nat) (hk : k < 16)
    (hp : s.keypad k ≠ 0) (i : Nat) (hi : i ≤ k)
    (hz : ∀ j, i ≤ j → j < k → s.keypad j = 0) : findKeyFrom s i = some k := by
  rw [findKeyFrom_eq]
  have h16 : ¬ 16 ≤ i := by omega
  by_cases hik : i = k
  · subst hik; simp [h16, hp]
  · have hki : s.keypad i = 0 := hz i le_rfl (by omega)
    have ih : findKeyFrom s (i + 1) = some k :=
      findKeyFrom_eq_some s k hk hp (i + 1) (by omega)
        (fun j h1 h2 => hz j (by omega) h2)
    simp [h16, hki, ih]
termination_by 16 - i
decreasing_by omega

/-- One chip8_step call equals the dispatch phase followed by the timer
block: every non-timer field comes from execPhase, the two timers are
decremented when nonzero, BEEP fires exactly when the post-dispatch sound
timer is 1, and the stderr report is unknownReport of the fetched word. -/
theorem chip8_step_fields (s : Chip8) :
    (chip8_step s).chip.mem = (execPhase s).mem ∧
    (chip8_step s).chip.V = (execPhase s).V ∧
    (chip8_step s).chip.I = (execPhase s).I ∧
    (chip8_step s).chip.pc = (execPhase s).pc ∧
    (chip8_step s).chip.stack = (execPhase s).stack ∧
    (chip8_step s).chip.sp = (execPhase s).sp ∧
    (chip8_step s).chip.keypad = (execPhase s).keypad ∧
    (chip8_step s).chip.display = (execPhase s).display ∧
    (chip8_step s).chip.randSeq = (execPhase s).randSeq ∧
    (chip8_step s).chip.randIdx = (execPhase s).randIdx ∧
    (chip8_step s).chip.delay_timer =
      (if 0 < (execPhase s).delay_timer then (execPhase s).delay_timer - 1
       else (execPhase s).delay_timer) ∧
    (chip8_step s).chip.sound_timer =
      (if 0 < (execPhase s).sound_timer then (execPhase s).sound_timer - 1
       else (execPhase s).sound_timer) ∧
    ((chip8_step s).beep = true ↔ (execPhase s).sound_timer = 1) ∧
    (chip8_step s).unknownWord = unknownReport (fetchWord s) := by
  unfold chip8_step
  by_cases hd : 0 < (execPhase s).delay_timer <;>
    by_cases hs : 0 < (execPhase s).sound_timer <;>
      simp [hd, hs] <;> omega

/-- A concrete machine with V0 = 0 and V1 = 1, exercising SUBN. -/
def subnTestChip : Chip8 := { zeroChip with V := Function.update zeroChip.V 1 1 }

/-- C1: for a = V0 = 0, b = V1 = 1 we have b >= a, so the claim requires the
flag register V15 to be 1 after SUBN; the code stores (b - a) mod 256 = 1 in
V0 but sets V15 to 0, because chip8_SUBN_Vx_Vy writes the flag as 1 exactly
when Vy <= Vx, the inverse of the documented no-borrow convention. -/
theorem C1_subn_flag_divergence :
    subnTestChip.V 1 ≥ subnTestChip.V 0 ∧
    (chip8_SUBN_Vx_Vy 0 1 subnTestChip).V 0 = 1 ∧
    (chip8_SUBN_Vx_Vy 0 1 subnTestChip).V 15 = 0 := by
  refine ⟨by decide, by decide, by decide⟩

/-- C2: chip8_init zeroes all of memory and nothing in the repository ever
writes font data, so after reset every byte of the reserved low-memory
region [0x000, 0x200) is 0, not the 16-glyph font table the glyph-address
computation I = Vx * 5 is supposed to land in. -/
theorem C2_init_font_region_zero (s : Chip8) (a : Nat) (ha : a < 0x200) :
    (chip8_init s).mem a = 0 := rfl

/-- Witness for C2 at address 0 of a reset machine. -/
theorem C2_init_font_region_zero_witness :
    (0 : Nat) < 0x200 ∧ (chip8_init zeroChip).mem 0 = 0 :=
  ⟨by decide, C2_init_font_region_zero zeroChip 0 (by decide)⟩

/-- A concrete machine with V15 = 200 and V0 = 100, exercising ADD at x = 15. -/
def addTestChip : Chip8 :=
  { zeroChip with V := Function.update (Function.update zeroChip.V 15 200) 0 100 }

/-- C3 counterexample: at x = 15, y = 0 with V15 = 200, V0 = 100 the sum is
300 > 255, so the claim requires V15 = 1 after ADD, but the stored result
(a + b) mod 256 = 44 overwrites the just-written carry flag. -/
theorem C3_add_flag_overwritten_at_x15 :
    addTestChip.V 15 + addTestChip.V 0 > 255 ∧
    (chip8_ADD_Vx_Vy 15 0 addTestChip).V 15 = 44 ∧
    (chip8_ADD_Vx_Vy 15 0 addTestChip).V 15 ≠ 1 := by
  refine ⟨by decide, by decide, by decide⟩

/-- C3 amended: for byte-valued registers, ADD always leaves
(a + b) mod 256 in Vx, and when x is not the flag register itself V15
becomes 1 exactly when a + b > 255; for x = 15 the stored sum overwrites
the flag. -/
theorem C3_add_carry_amended (s : Chip8) (x y : Nat)
    (ha : s.V x < 256) (hb : s.V y < 256) :
    (chip8_ADD_Vx_Vy x y s).V x = (s.V x + s.V y) % 256 ∧
    (x ≠ 15 →
      (chip8_ADD_Vx_Vy x y s).V 15 = if s.V x + s.V y > 255 then 1 else 0) := by
  have hs : (s.V x + s.V y) % 65536 = s.V x + s.V y :=
    Nat.mod_eq_of_lt (by omega)
  unfold chip8_ADD_Vx_Vy
  refine ⟨?_, fun hx => ?_⟩
  · simp [hs]
  · simp [Function.update_apply, hs, Ne.symm hx]

/-- Witness for C3 amended at x = 0, y = 1 on the zero machine. -/
theorem C3_add_carry_amended_witness :
    zeroChip.V 0 < 256 ∧ zeroChip.V 1 < 256 ∧
    ((chip8_ADD_Vx_Vy 0 1 zeroChip).V 0 = (zeroChip.V 0 + zeroChip.V 1) % 256 ∧
     ((0 : Nat) ≠ 15 →
       (chip8_ADD_Vx_Vy 0 1 zeroChip).V 15 =
         if zeroChip.V 0 + zeroChip.V 1 > 255 then 1 else 0)) :=
  ⟨by decide, by decide, C3_add_carry_amended zeroChip 0 1 (by decide) (by decide)⟩

/-- C7: loading a byte list of exactly 4096 - 0x200 = 3584 bytes succeeds,
and loading any list of more than 3584 bytes fails while returning the
machine state entirely unchanged. -/
theorem C7_load_rom_capacity (s : Chip8) (rom big : List Nat)
    (h1 : rom.length = 3584) (h2 : big.length > 3584) :
    (chip8_load_rom s rom).1 = true ∧
    (chip8_load_rom s big).1 = false ∧ (chip8_load_rom s big).2 = s := by
  unfold chip8_load_rom
  have hc1 : ¬ rom.length > 4096 - 0x200 := by omega
  have hc2 : big.length > 4096 - 0x200 := by omega
  simp [hc1, hc2]

/-- Witness for C7 with lists of lengths 3584 and 3585. -/
theorem C7_load_rom_capacity_witness :
    (List.replicate 3584 (0 : Nat)).length = 3584 ∧
    (List.replicate 3585 (0 : Nat)).length > 3584 ∧
    ((chip8_load_rom zeroChip (List.replicate 3584 0)).1 = true ∧
     (chip8_load_rom zeroChip (List.replicate 3585 0)).1 = false ∧
     (chip8_load_rom zeroChip (List.replicate 3585 0)).2 = zeroChip) :=
  ⟨List.length_replicate 3584 0, by rw [List.length_replicate]; omega,
   C7_load_rom_capacity zeroChip (List.replicate 3584 0) (List.replicate 3585 0)
     (List.length_replicate 3584 0) (by rw [List.length_replicate]; omega)⟩

/-- C9: on every step, after instruction dispatch (execPhase) the delay
timer is decremented by exactly 1 when nonzero with floor at 0, then the
sound timer likewise, and the BEEP tone request fires on a cycle exactly
when the post-dispatch sound timer goes from 1 to 0 on that cycle. -/
theorem C9_timer_tick (s : Chip8) :
    (chip8_step s).chip.delay_timer =
      (if 0 < (execPhase s).delay_timer then (execPhase s).delay_timer - 1
       else (execPhase s).delay_timer) ∧
    (chip8_step s).chip.sound_timer =
      (if 0 < (execPhase s).sound_timer then (execPhase s).sound_timer - 1
       else (execPhase s).sound_timer) ∧
    ((chip8_step s).beep = true ↔ (execPhase s).sound_timer = 1) := by
  obtain ⟨-, -, -, -, -, -, -, -, -, -, hd, hs, hb, -⟩ := chip8_step_fields s
  exact ⟨hd, hs, hb⟩

/-- C10: when a shift targets the flag register itself, the shifted result
overwrites the just-written flag: SHR with x = 15 always leaves V15 = 0,
and SHL with x = 15 leaves V15 = 2 * (pre-shift most significant bit). -/
theorem C10_shift_into_flag_register (s : Chip8) (h : s.V 15 < 256) :
    (chip8_SHR_Vx 15 s).V 15 = 0 ∧
    (chip8_SHL_Vx 15 s).V 15 = 2 * (s.V 15 >>> 7) := by
  constructor
  · unfold chip8_SHR_Vx
    simp only [Function.update_same]
    have h1 : s.V 15 &&& 1 = s.V 15 % 2 := Nat.and_one_is_mod _
    rw [h1, Nat.shiftRight_eq_div_pow]
    simp [Nat.div_eq_of_lt (by omega : s.V 15 % 2 < 2 ^ 1)]
  · unfold chip8_SHL_Vx
    simp only [Function.update_same]
    have h7 : s.V 15 >>> 7 = s.V 15 / 128 := by
      rw [Nat.shiftRight_eq_div_pow]
    have h2 : (s.V 15 >>> 7) <<< 1 = 2 * (s.V 15 >>> 7) := by
      rw [Nat.shiftLeft_eq]; ring
    rw [h2, h7]
    have hle : s.V 15 / 128 ≤ 1 := by omega
    have hlt : 2 * (s.V 15 / 128) < 256 := by omega
    exact Nat.mod_eq_of_lt hlt

/-- Witness for C10 with V15 = 128 (most significant bit set). -/
theorem C10_shift_into_flag_register_witness :
    ({ zeroChip with V := Function.update zeroChip.V 15 128 } : Chip8).V 15 < 256 ∧
    ((chip8_SHR_Vx 15 { zeroChip with V := Function.update zeroChip.V 15 128 }).V 15 = 0 ∧
     (chip8_SHL_Vx 15 { zeroChip with V := Function.update zeroChip.V 15 128 }).V 15 =
       2 * (({ zeroChip with V := Function.update zeroChip.V 15 128 } : Chip8).V 15 >>> 7)) :=
  ⟨by decide,
   C10_shift_into_flag_register { zeroChip with V := Function.update zeroChip.V 15 128 }
     (by decide)⟩

/-- A machine whose memory is filled with 0xE0, so every fetch yields the
word 0xE0E0, which matches no opcode pattern (the 0xE000 family only accepts
low bytes 0x9E and 0xA1). -/
def unkChipA : Chip8 := { zeroChip with mem := fun _ => 0xE0 }

/-- The same machine with a different program counter. -/
def unkChipB : Chip8 := { unkChipA with pc := 0x300 }

/-- C8 counterexample: two machines that differ only in the program counter
both fetch the unknown word 0xE0E0, and chip8_step produces the identical
stderr report some 0xE0E0 for both — the C report prints only the raw word,
so it cannot identify the program counter as the claim states. -/
theorem C8_report_does_not_identify_pc :
    unkChipA.pc ≠ unkChipB.pc ∧
    decodeExec (fetchWord unkChipA) = none ∧
    decodeExec (fetchWord unkChipB) = none ∧
    (chip8_step unkChipA).unknownWord = some 0xE0E0 ∧
    (chip8_step unkChipB).unknownWord = some 0xE0E0 := by
  refine ⟨by decide, rfl, rfl, by decide, by decide⟩

/-- C8 amended: when the fetched word matches no opcode pattern, chip8_step
reports the raw word (only) on stderr and leaves pc, registers, index
register, memory, stack, stack pointer, framebuffer and input state
unchanged for that cycle; the post-cycle timer decrement still occurs. -/
theorem C8_unknown_opcode_preserves_state (s : Chip8)
    (h : decodeExec (fetchWord s) = none) :
    (chip8_step s).unknownWord = some (fetchWord s) ∧
    (chip8_step s).chip.pc = s.pc ∧
    (chip8_step s).chip.V = s.V ∧
    (chip8_step s).chip.I = s.I ∧
    (chip8_step s).chip.mem = s.mem ∧
    (chip8_step s).chip.stack = s.stack ∧
    (chip8_step s).chip.sp = s.sp ∧
    (chip8_step s).chip.display = s.display ∧
    (chip8_step s).chip.keypad = s.keypad ∧
    (chip8_step s).chip.delay_timer =
      (if 0 < s.delay_timer then s.delay_timer - 1 else s.delay_timer) ∧
    (chip8_step s).chip.sound_timer =
      (if 0 < s.sound_timer then s.sound_timer - 1 else s.sound_timer) := by
  have he : execPhase s = s := by unfold execPhase; rw [h]
  have hr : unknownReport (fetchWord s) = some (fetchWord s) := by
    unfold unknownReport; rw [h]
  obtain ⟨h1, h2, h3, h4, h5, h6, h7, h8, -, -, hd, hs2, -, hu⟩ :=
    chip8_step_fields s
  rw [he] at h1 h2 h3 h4 h5 h6 h7 h8 hd hs2
  exact ⟨by rw [hu, hr], h4, h2, h3, h1, h5, h6, h8, h7, hd, hs2⟩

/-- Witness for C8 amended on the concrete unknown-opcode machine. -/
theorem C8_unknown_opcode_preserves_state_witness :
    decodeExec (fetchWord unkChipA) = none ∧
    ((chip8_step unkChipA).unknownWord = some (fetchWord unkChipA) ∧
     (chip8_step unkChipA).chip.pc = unkChipA.pc ∧
     (chip8_step unkChipA).chip.V = unkChipA.V ∧
     (chip8_step unkChipA).chip.I = unkChipA.I ∧
     (chip8_step unkChipA).chip.mem = unkChipA.mem ∧
     (chip8_step unkChipA).chip.stack = unkChipA.stack ∧
     (chip8_step unkChipA).chip.sp = unkChipA.sp ∧
     (chip8_step unkChipA).chip.display = unkChipA.display ∧
     (chip8_step unkChipA).chip.keypad = unkChipA.keypad ∧
     (chip8_step unkChipA).chip.delay_timer =
       (if 0 < unkChipA.delay_timer then unkChipA.delay_timer - 1
        else unkChipA.delay_timer) ∧
     (chip8_step unkChipA).chip.sound_timer =
       (if 0 < unkChipA.sound_timer then unkChipA.sound_timer - 1
        else unkChipA.sound_timer)) :=
  ⟨rfl, C8_unknown_opcode_preserves_state unkChipA rfl⟩

/-- Dispatch on a key-wait instruction: when mem[pc] = 0xF0 + x and
mem[pc + 1] = 0x0A with x < 16, the fetched word decodes to Fx0A and the
dispatch phase runs chip8_LD_Vx_K x. -/
theorem execPhase_keywait (s : Chip8) (x : Nat) (hx : x < 16)
    (hm1 : s.mem s.pc = 0xF0 + x) (hm2 : s.mem (s.pc + 1) = 0x0A) :
    execPhase s = chip8_LD_Vx_K x s := by
  interval_cases x <;> (unfold execPhase fetchWord; rw [hm1, hm2]; rfl)

/-- A key-wait cycle with no key pressed leaves the dispatch phase a no-op. -/
theorem execPhase_keywait_nokey (s : Chip8) (x : Nat) (hx : x < 16)
    (hm1 : s.mem s.pc = 0xF0 + x) (hm2 : s.mem (s.pc + 1) = 0x0A)
    (hnokey : ∀ j, j < 16 → s.keypad j = 0) :
    execPhase s = s := by
  rw [execPhase_keywait s x hx hm1 hm2]
  unfold chip8_LD_Vx_K firstPressedKey
  rw [findKeyFrom_eq_none s 0 (fun j _ h2 => hnokey j h2)]

/-- C5: while the current instruction is the key-wait Fx0A and no key is
pressed, any number m of step calls leaves the program counter unchanged;
the first step call after set_key(k, 1), with k the only pressed key,
advances the counter by 2 and stores k in the target register Vx. -/
theorem C5_key_wait (s : Chip8) (x k m : Nat) (hx : x < 16) (hk : k < 16)
    (hm1 : s.mem s.pc = 0xF0 + x) (hm2 : s.mem (s.pc + 1) = 0x0A)
    (hnokey : ∀ j, j < 16 → s.keypad j = 0)
    (hpc : s.pc + 2 < 65536) :
    (stepN m s).pc = s.pc ∧
    (chip8_step (chip8_set_key k 1 s)).chip.pc = s.pc + 2 ∧
    (chip8_step (chip8_set_key k 1 s)).chip.V x = k := by
  have hA : ∀ mm t, t.mem = s.mem → t.pc = s.pc → t.keypad = s.keypad →
      (stepN mm t).pc = s.pc := by
    intro mm
    induction mm with
    | zero => intro t _ h2 _; exact h2
    | succ nn ih =>
      intro t h1 h2 h3
      have hm1t : t.mem t.pc = 0xF0 + x := by rw [h1, h2]; exact hm1
      have hm2t : t.mem (t.pc + 1) = 0x0A := by rw [h1, h2]; exact hm2
      have hkt : ∀ j, j < 16 → t.keypad j = 0 := by
        intro j hj; rw [h3]; exact hnokey j hj
      have he : execPhase t = t := execPhase_keywait_nokey t x hx hm1t hm2t hkt
      obtain ⟨f1, -, -, f4, -, -, f7, -, -, -, -, -, -, -⟩ := chip8_step_fields t
      rw [he] at f1 f4 f7
      show (stepN nn (chip8_step t).chip).pc = s.pc
      exact ih (chip8_step t).chip (by rw [f1, h1]) (by rw [f4, h2])
        (by rw [f7, h3])
  refine ⟨hA m s rfl rfl rfl, ?_, ?_⟩
  all_goals {
    have hs2 : chip8_set_key k 1 s =
        { s with keypad := Function.update s.keypad k 1 } := by
      unfold chip8_set_key
      rw [if_pos (by omega : k ≤ 15)]
    have hm1b : (chip8_set_key k 1 s).mem (chip8_set_key k 1 s).pc = 0xF0 + x := by
      rw [hs2]; exact hm1
    have hm2b : (chip8_set_key k 1 s).mem ((chip8_set_key k 1 s).pc + 1) = 0x0A := by
      rw [hs2]; exact hm2
    have hfk : firstPressedKey (chip8_set_key k 1 s) = some k := by
      unfold firstPressedKey
      refine findKeyFrom_eq_some (chip8_set_key k 1 s) k hk ?_ 0 (Nat.zero_le k) ?_
      · rw [hs2]; simp
      · intro j _ hjk
        rw [hs2]
        simp only []
        rw [Function.update_noteq (by omega : j ≠ k)]
        exact hnokey j (by omega)
    have hexec : execPhase (chip8_set_key k 1 s) =
        { (chip8_set_key k 1 s) with
          V := Function.update (chip8_set_key k 1 s).V x k,
          pc := ((chip8_set_key k 1 s).pc + 2) % 65536 } := by
      rw [execPhase_keywait (chip8_set_key k 1 s) x hx hm1b hm2b]
      unfold chip8_LD_Vx_K
      rw [hfk]
    obtain ⟨-, g2, -, g4, -, -, -, -, -, -, -, -, -, -⟩ :=
      chip8_step_fields (chip8_set_key k 1 s)
    rw [hexec] at g2 g4
    first
    | · rw [g4]
        have : (chip8_set_key k 1 s).pc = s.pc := by rw [hs2]
        rw [this]
        exact Nat.mod_eq_of_lt hpc
    | · rw [g2]
        simp
  }

/-- A reset machine whose program memory holds the key-wait opcode F00A at
pc = 0x200. -/
def waitChip : Chip8 :=
  { zeroChip with mem := fun a =>
      if a = 0x200 then 0xF0 else if a = 0x201 then 0x0A else 0 }

/-- Witness for C5 with x = 0, k = 3 and five waiting steps. -/
theorem C5_key_wait_witness :
    ((0 : Nat) < 16 ∧ (3 : Nat) < 16 ∧
     waitChip.mem waitChip.pc = 0xF0 + 0 ∧
     waitChip.mem (waitChip.pc + 1) = 0x0A ∧
     waitChip.pc + 2 < 65536) ∧
    ((stepN 5 waitChip).pc = waitChip.pc ∧
     (chip8_step (chip8_set_key 3 1 waitChip)).chip.pc = waitChip.pc + 2 ∧
     (chip8_step (chip8_set_key 3 1 waitChip)).chip.V 0 = 3) :=
  ⟨⟨by decide, by decide, by decide, by decide, by decide⟩,
   C5_key_wait waitChip 0 3 5 (by decide) (by decide) (by decide) (by decide)
     (by decide) (by decide)⟩

/-- Sequence of CALL instructions executed in order. -/
def doCalls (as : List Nat) (s : Chip8) : Chip8 :=
  as.foldl (fun t a => chip8_CALL_addr a t) s

/-- Sequence of k RET instructions. -/
def doRets : Nat → Chip8 → Chip8
  | 0, s => s
  | k + 1, s => doRets k (chip8_RET s)

/-- The program counter in force just before the (j+1)-th call of the
sequence: the original pc for the first call, and thereafter the target
address of the previous call (as stored in the uint16_t pc). -/
def preCallPc (s : Chip8) (as : List Nat) : Nat → Nat
  | 0 => s.pc
  | j + 1 => as.getD j 0 % 65536

/-- Shifting preCallPc across one executed call. -/
theorem preCallPc_cons (s : Chip8) (a : Nat) (as : List Nat) (j : Nat) :
    preCallPc (chip8_CALL_addr a s) as j = preCallPc s (a :: as) (j + 1) := by
  cases j with
  | zero => rfl
  | succ j => rfl

/-- Effect of a call sequence: the stack pointer grows by the number of
calls, entries below the initial pointer are untouched, entry sp + j holds
the exact pre-call pc of call j, and the final pc is the pre-call pc of the
hypothetical next call. -/
theorem doCalls_spec (as : List Nat) : ∀ s : Chip8,
    s.sp + as.length ≤ 16 →
    (doCalls as s).sp = s.sp + as.length ∧
    (∀ i, i < s.sp → (doCalls as s).stack i = s.stack i) ∧
    (∀ j, j < as.length → (doCalls as s).stack (s.sp + j) = preCallPc s as j) ∧
    (doCalls as s).pc = preCallPc s as as.length := by
  induction as with
  | nil =>
    intro s _
    refine ⟨by simp [doCalls], fun i _ => by simp [doCalls], fun j hj => by simp at hj, rfl⟩
  | cons a as ih =>
    intro s h
    have hcall : chip8_CALL_addr a s =
        { s with stack := Function.update s.stack s.sp s.pc,
                 sp := s.sp + 1, pc := a % 65536 } := by
      unfold chip8_CALL_addr
      rw [Nat.mod_eq_of_lt (by omega : s.sp + 1 < 65536)]
    have hsp1 : (chip8_CALL_addr a s).sp = s.sp + 1 := by rw [hcall]
    have hlen : (chip8_CALL_addr a s).sp + as.length ≤ 16 := by
      rw [hsp1]; simpa [Nat.add_assoc, Nat.add_comm, Nat.add_left_comm] using h
    obtain ⟨i1, i2, i3, i4⟩ := ih (chip8_CALL_addr a s) hlen
    have hdc : doCalls (a :: as) s = doCalls as (chip8_CALL_addr a s) := rfl
    refine ⟨?_, ?_, ?_, ?_⟩
    · rw [hdc, i1, hsp1]; simp [List.length_cons]; omega
    · intro i hi
      rw [hdc, i2 i (by omega : i < (chip8_CALL_addr a s).sp), hcall]
      exact Function.update_noteq (by omega) _ _
    · intro j hj
      rw [hdc]
      cases j with
      | zero =>
        have := i2 s.sp (by omega : s.sp < (chip8_CALL_addr a s).sp)
        rw [Nat.add_zero, this, hcall]
        simp [preCallPc]
      | succ j =>
        have hidx : s.sp + (j + 1) = (chip8_CALL_addr a s).sp + j := by
          rw [hsp1]; omega
        rw [hidx, i3 j (by simpa using hj), preCallPc_cons]
    · rw [hdc, i4]
      have : as.length + 1 = (a :: as).length := by simp
      rw [← this, ← preCallPc_cons]

/-- Effect of a return sequence: k pops lower the stack pointer by k, leave
the stack array untouched, and (for k > 0) set the pc to the entry at index
sp - k advanced by 2, exactly the popped address plus 2. -/
theorem doRets_spec (k : Nat) : ∀ t : Chip8, k ≤ t.sp → t.sp ≤ 16 →
    (doRets k t).sp = t.sp - k ∧
    (doRets k t).stack = t.stack ∧
    (0 < k → (doRets k t).pc = (t.stack (t.sp - k) + 2) % 65536) := by
  induction k with
  | zero =>
    intro t _ _
    exact ⟨by simp [doRets], rfl, fun h => absurd h (by omega)⟩
  | succ k ih =>
    intro t hk h16
    have hret : chip8_RET t =
        { t with sp := t.sp - 1, pc := (t.stack (t.sp - 1) + 2) % 65536 } := by
      unfold chip8_RET
      have he : t.sp + 65535 = (t.sp - 1) + 65536 := by omega
      rw [he, Nat.add_mod_right, Nat.mod_eq_of_lt (by omega : t.sp - 1 < 65536)]
    have hsp : (chip8_RET t).sp = t.sp - 1 := by rw [hret]
    have hst : (chip8_RET t).stack = t.stack := by rw [hret]
    obtain ⟨i1, i2, i3⟩ := ih (chip8_RET t) (by omega) (by omega)
    have hdr : doRets (k + 1) t = doRets k (chip8_RET t) := rfl
    refine ⟨?_, ?_, fun _ => ?_⟩
    · rw [hdr, i1, hsp]; omega
    · rw [hdr, i2, hst]
    · cases Nat.eq_zero_or_pos k with
      | inl h0 =>
        subst h0
        rw [hdr]
        show (chip8_RET t).pc = (t.stack (t.sp - 1) + 2) % 65536
        rw [hret]
      | inr hpos =>
        rw [hdr, i3 hpos, hst, hsp]
        have : t.sp - 1 - k = t.sp - (k + 1) := by omega
        rw [this]

/-- C4: starting from an empty stack, a sequence of up to 16 nested calls
stores the exact pre-call program counter of every call in the stack without
corrupting any entry (also throughout the returns), each matching return
resumes at that exact stored pre-call pc advanced by 2, the final return
resumes at the original pc + 2, and the stack pointer returns to 0. -/
theorem C4_call_ret_roundtrip (s : Chip8) (as : List Nat) (j k : Nat)
    (h0 : s.sp = 0) (hlen : as.length ≤ 16)
    (hj : j < as.length) (hk : k < as.length) :
    (doCalls as s).stack j = preCallPc s as j ∧
    (doRets k (doCalls as s)).stack j = preCallPc s as j ∧
    (doRets (k + 1) (doCalls as s)).pc =
      (preCallPc s as (as.length - (k + 1)) + 2) % 65536 ∧
    (doRets as.length (doCalls as s)).pc = (s.pc + 2) % 65536 ∧
    (doRets as.length (doCalls as s)).sp = 0 := by
  obtain ⟨c1, _, c3, _⟩ := doCalls_spec as s (by omega)
  have hsp : (doCalls as s).sp = as.length := by rw [c1, h0, Nat.zero_add]
  have hentry : ∀ i, i < as.length → (doCalls as s).stack i = preCallPc s as i := by
    intro i hi
    have := c3 i hi
    rwa [h0, Nat.zero_add] at this
  obtain ⟨r1a, r2a, _⟩ := doRets_spec k (doCalls as s) (by omega) (by omega)
  obtain ⟨r1b, r2b, r3b⟩ :=
    doRets_spec (k + 1) (doCalls as s) (by omega) (by omega)
  obtain ⟨r1c, r2c, r3c⟩ :=
    doRets_spec as.length (doCalls as s) (by omega) (by omega)
  refine ⟨hentry j hj, ?_, ?_, ?_, ?_⟩
  · rw [r2a]; exact hentry j hj
  · rw [r3b (by omega), hsp]
    rw [hentry (as.length - (k + 1)) (by omega)]
  · rw [r3c (by omega), hsp, Nat.sub_self]
    rw [hentry 0 (by omega)]
    rfl
  · rw [r1c, hsp, Nat.sub_self]

/-- A list of 16 distinct call target addresses. -/
def callAddrs : List Nat :=
  [0x300, 0x310, 0x320, 0x330, 0x340, 0x350, 0x360, 0x370,
   0x380, 0x390, 0x3A0, 0x3B0, 0x3C0, 0x3D0, 0x3E0, 0x3F0]

/-- Witness for C4 with 16 nested calls from the reset machine. -/
theorem C4_call_ret_roundtrip_witness :
    (zeroChip.sp = 0 ∧ callAddrs.length ≤ 16 ∧
     (7 : Nat) < callAddrs.length ∧ (15 : Nat) < callAddrs.length) ∧
    ((doCalls callAddrs zeroChip).stack 7 = preCallPc zeroChip callAddrs 7 ∧
     (doRets 15 (doCalls callAddrs zeroChip)).stack 7 =
       preCallPc zeroChip callAddrs 7 ∧
     (doRets 16 (doCalls callAddrs zeroChip)).pc =
       (preCallPc zeroChip callAddrs (callAddrs.length - 16) + 2) % 65536 ∧
     (doRets callAddrs.length (doCalls callAddrs zeroChip)).pc =
       (zeroChip.pc + 2) % 65536 ∧
     (doRets callAddrs.length (doCalls callAddrs zeroChip)).sp = 0) :=
  ⟨⟨by decide, by decide, by decide, by decide⟩,
   C4_call_ret_roundtrip zeroChip callAddrs 7 15 (by decide) (by decide)
     (by decide) (by decide)⟩

/-- Toggle indicator of one sprite pixel: 1 exactly when the sprite row byte
has bit (0x80 >> j) set and the display cell d is the one the pixel lands
on, else 0. -/
def colTog (a b px i j d : Nat) : Nat :=
  if px &&& (0x80 >>> j) ≠ 0 ∧ d = (a + j) + (b + i) * 64 then 1 else 0

/-- Toggle parity contributed to display cell d by one sprite row. -/
def rowTog (a b px i d : Nat) : Nat :=
  (List.range 8).foldl (fun acc j => acc ^^^ colTog a b px i j d) 0

/-- Toggle parity contributed to display cell d by a whole draw of h rows
read from memory m starting at base. -/
def drawTog (a b : Nat) (m : Nat → Nat) (base h d : Nat) : Nat :=
  (List.range h).foldl (fun acc i => acc ^^^ rowTog a b (m (base + i)) i d) 0

/-- One sprite pixel XORs the display cell it lands on and nothing else. -/
theorem drwPixel_display (x y i j px : Nat) (s : Chip8) (d : Nat) :
    (drwPixel x y i j px s).display d
      = s.display d ^^^ colTog (s.V x) (s.V y) px i j d := by
  unfold drwPixel colTog
  by_cases hb : px &&& (0x80 >>> j) ≠ 0
  · by_cases hd : d = (s.V x + j) + (s.V y + i) * 64
    · subst hd
      by_cases hc : s.display ((s.V x + j) + (s.V y + i) * 64) = 1 <;>
        simp [hb, hc]
    · by_cases hc : s.display ((s.V x + j) + (s.V y + i) * 64) = 1 <;>
        simp [hb, hc, hd, Function.update_noteq hd]
  · simp [hb]

/-- One sprite pixel only writes the display and the flag register. -/
theorem drwPixel_fields (x y i j px : Nat) (s : Chip8) :
    (∀ r, r ≠ 15 → (drwPixel x y i j px s).V r = s.V r) ∧
    (drwPixel x y i j px s).mem = s.mem ∧
    (drwPixel x y i j px s).I = s.I := by
  unfold drwPixel
  refine ⟨fun r hr => ?_, ?_, ?_⟩
  · by_cases hb : px &&& (0x80 >>> j) ≠ 0 <;>
      by_cases hc : s.display ((s.V x + j) + (s.V y + i) * 64) = 1 <;>
        simp [hb, hc, Function.update_noteq hr]
  · by_cases hb : px &&& (0x80 >>> j) ≠ 0 <;>
      by_cases hc : s.display ((s.V x + j) + (s.V y + i) * 64) = 1 <;>
        simp [hb, hc]
  · by_cases hb : px &&& (0x80 >>> j) ≠ 0 <;>
      by_cases hc : s.display ((s.V x + j) + (s.V y + i) * 64) = 1 <;>
        simp [hb, hc]

/-- The inner column fold XORs the display cell with the accumulated column
toggle parity and preserves non-flag registers, memory and I. -/
theorem drwCols_spec (x y i px : Nat) (hx : x ≠ 15) (hy : y ≠ 15)
    (d : Nat) : ∀ n : Nat, ∀ s : Chip8,
    (((List.range n).foldl (fun t j => drwPixel x y i j px t) s).display d
      = s.display d ^^^
        (List.range n).foldl
          (fun acc j => acc ^^^ colTog (s.V x) (s.V y) px i j d) 0) ∧
    (∀ r, r ≠ 15 →
      ((List.range n).foldl (fun t j => drwPixel x y i j px t) s).V r = s.V r) ∧
    ((List.range n).foldl (fun t j => drwPixel x y i j px t) s).mem = s.mem ∧
    ((List.range n).foldl (fun t j => drwPixel x y i j px t) s).I = s.I := by
  intro n
  induction n with
  | zero => intro s; simp
  | succ n ih =>
    intro s
    obtain ⟨ih1, ih2, ih3, ih4⟩ := ih s
    have hr : (List.range (n + 1)).foldl (fun t j => drwPixel x y i j px t) s
        = drwPixel x y i n px
            ((List.range n).foldl (fun t j => drwPixel x y i j px t) s) := by
      rw [List.range_succ, List.foldl_append]; rfl
    have hg : (List.range (n + 1)).foldl
          (fun acc j => acc ^^^ colTog (s.V x) (s.V y) px i j d) 0
        = (List.range n).foldl
            (fun acc j => acc ^^^ colTog (s.V x) (s.V y) px i j d) 0 ^^^
          colTog (s.V x) (s.V y) px i n d := by
      rw [List.range_succ, List.foldl_append]; rfl
    obtain ⟨p1, p2, p3⟩ :=
      drwPixel_fields x y i n px
        ((List.range n).foldl (fun t j => drwPixel x y i j px t) s)
    refine ⟨?_, fun r hrr => ?_, ?_, ?_⟩
    · rw [hr, drwPixel_display, ih1, hg, ih2 x hx, ih2 y hy, Nat.xor_assoc]
    · rw [hr, p1 r hrr, ih2 r hrr]
    · rw [hr, p2, ih3]
    · rw [hr, p3, ih4]

/-- The row fold XORs the display cell with the accumulated draw toggle
parity and preserves non-flag registers, memory and I. -/
theorem drwRows_spec (x y : Nat) (hx : x ≠ 15) (hy : y ≠ 15)
    (base d : Nat) : ∀ h : Nat, ∀ s : Chip8,
    (((List.range h).foldl (fun t i => drwRow x y i (t.mem (base + i)) t) s).display d
      = s.display d ^^^ drawTog (s.V x) (s.V y) s.mem base h d) ∧
    (∀ r, r ≠ 15 →
      ((List.range h).foldl (fun t i => drwRow x y i (t.mem (base + i)) t) s).V r
        = s.V r) ∧
    ((List.range h).foldl (fun t i => drwRow x y i (t.mem (base + i)) t) s).mem
      = s.mem ∧
    ((List.range h).foldl (fun t i => drwRow x y i (t.mem (base + i)) t) s).I
      = s.I := by
  intro h
  induction h with
  | zero => intro s; simp [drawTog]
  | succ h ih =>
    intro s
    obtain ⟨ih1, ih2, ih3, ih4⟩ := ih s
    have hr : (List.range (h + 1)).foldl
          (fun t i => drwRow x y i (t.mem (base + i)) t) s
        = drwRow x y h
            (((List.range h).foldl (fun t i => drwRow x y i (t.mem (base + i)) t) s).mem
              (base + h))
            ((List.range h).foldl (fun t i => drwRow x y i (t.mem (base + i)) t) s) := by
      rw [List.range_succ, List.foldl_append]; rfl
    have hg : drawTog (s.V x) (s.V y) s.mem base (h + 1) d
        = drawTog (s.V x) (s.V y) s.mem base h d ^^^
          rowTog (s.V x) (s.V y) (s.mem (base + h)) h d := by
      unfold drawTog
      rw [List.range_succ, List.foldl_append]; rfl
    obtain ⟨q1, q2, q3, q4⟩ :=
      drwCols_spec x y h (((List.range h).foldl
          (fun t i => drwRow x y i (t.mem (base + i)) t) s).mem (base + h))
        hx hy d 8
        ((List.range h).foldl (fun t i => drwRow x y i (t.mem (base + i)) t) s)
    refine ⟨?_, fun r hrr => ?_, ?_, ?_⟩
    · rw [hr]
      show (((List.range 8).foldl (fun t j => drwPixel x y h j
          (((List.range h).foldl (fun t i => drwRow x y i (t.mem (base + i)) t) s).mem
            (base + h)) t)
          ((List.range h).foldl (fun t i => drwRow x y i (t.mem (base + i)) t) s))).display d = _
      rw [q1, ih1, ih2 x hx, ih2 y hy, ih3, hg, Nat.xor_assoc]
      rfl
    · rw [hr]
      show ((List.range 8).foldl (fun t j => drwPixel x y h j _ t) _).V r = s.V r
      rw [q2 r hrr, ih2 r hrr]
    · rw [hr]
      show ((List.range 8).foldl (fun t j => drwPixel x y h j _ t) _).mem = s.mem
      rw [q3, ih3]
    · rw [hr]
      show ((List.range 8).foldl (fun t j => drwPixel x y h j _ t) _).I = s.I
      rw [q4, ih4]

/-- Display characterization of the draw instruction for coordinate
registers other than the flag register: every cell is XOR-toggled according
to its accumulated toggle parity, and the coordinate registers, memory and
index register are unchanged. -/
theorem chip8_DRW_spec (x y h : Nat) (hx : x ≠ 15) (hy : y ≠ 15)
    (s : Chip8) (d : Nat) :
    (chip8_DRW_Vx_Vy_nibble x y h s).display d
      = s.display d ^^^ drawTog (s.V x) (s.V y) s.mem s.I h d ∧
    (chip8_DRW_Vx_Vy_nibble x y h s).V x = s.V x ∧
    (chip8_DRW_Vx_Vy_nibble x y h s).V y = s.V y ∧
    (chip8_DRW_Vx_Vy_nibble x y h s).mem = s.mem ∧
    (chip8_DRW_Vx_Vy_nibble x y h s).I = s.I := by
  obtain ⟨r1, r2, r3, r4⟩ :=
    drwRows_spec x y hx hy s.I d h { s with V := Function.update s.V 15 0 }
  have hVx : Function.update s.V 15 0 x = s.V x := Function.update_noteq hx 0 s.V
  have hVy : Function.update s.V 15 0 y = s.V y := Function.update_noteq hy 0 s.V
  simp only [Chip8.mk.injEq] at r1 r2 r3 r4
  refine ⟨?_, ?_, ?_, ?_, ?_⟩
  · have := r1
    simp only [hVx, hVy] at this
    exact this
  · exact (r2 x hx).trans hVx
  · exact (r2 y hy).trans hVy
  · exact r3
  · exact r4

/-- C6: clearing the screen, drawing any sprite (any height, any position
registers other than the flag register, any sprite bytes at the index
register), then executing the identical draw again leaves every cell of the
framebuffer cleared — XOR compositing is a double-application identity. -/
theorem C6_draw_twice_restores_cleared (s : Chip8) (x y n d : Nat)
    (hx : x ≠ 15) (hy : y ≠ 15) :
    (chip8_DRW_Vx_Vy_nibble x y n
      (chip8_DRW_Vx_Vy_nibble x y n (chip8_CLS s))).display d = 0 := by
  have hcd : (chip8_CLS s).display d = 0 := rfl
  obtain ⟨a1, a2, a3, a4, a5⟩ := chip8_DRW_spec x y n hx hy (chip8_CLS s) d
  obtain ⟨b1, b2, b3, b4, b5⟩ :=
    chip8_DRW_spec x y n hx hy
      (chip8_DRW_Vx_Vy_nibble x y n (chip8_CLS s)) d
  rw [b1, a1, hcd, a2, a3, a4, a5, Nat.zero_xor, Nat.xor_self]

/-- Witness for C6 at x = 0, y = 1, height 1 on the reset machine. -/
theorem C6_draw_twice_restores_cleared_witness :
    (0 : Nat) ≠ 15 ∧ (1 : Nat) ≠ 15 ∧
    (chip8_DRW_Vx_Vy_nibble 0 1 1
      (chip8_DRW_Vx_Vy_nibble 0 1 1 (chip8_CLS zeroChip))).display 0 = 0 :=
  ⟨by decide, by decide,
   C6_draw_twice_restores_cleared zeroChip 0 1 1 0 (by decide) (by decide)⟩
